import Mathlib

/-!
Verification of the AHB-lite slave responder (`cocotbext/ahb/ahb_slave.py`).

The development shallowly embeds the per-clock-edge body of
`AHBLiteSlave._proc_txn` as a step function over an explicit machine state,
together with the policy hooks of the base responder (`AHBLiteSlave`) and of
the memory-backed responder (`AHBLiteSlaveRAM`).  Bus signal values that can
be undriven (`Z`) are modelled as `Option` values; the configured default
drive value `def_val` is an `Option Bool` (`none` models the default "Z").

Types that live in `ahb_types.py` / `memory.py` (not part of the embedded
source file) are modelled from the specification where noted.
-/

set_option maxHeartbeats 1000000

/-- Modelled from the spec: response enumeration (OKAY, ERROR) from
`ahb_types.AHBResp`. -/
inductive AHBResp where
  | OKAY
  | ERROR
deriving DecidableEq, Repr

/-- Modelled from the spec: direction enumeration (READ, WRITE) from
`ahb_types.AHBWrite`. -/
inductive AHBWrite where
  | READ
  | WRITE
deriving DecidableEq, Repr

/-- Modelled from the spec: size-class enumeration
(BYTE=0, HWORD=1, WORD=2, DWORD=3, meaning 2^n bytes) from
`ahb_types.AHBSize`. -/
inductive AHBSize where
  | BYTE
  | HWORD
  | WORD
  | DWORD
deriving DecidableEq, Repr

/-- Numeric value of a size class (the exponent n, so the byte count is
`2 ^ toNat`). -/
def AHBSize.toNat : AHBSize → Nat
  | .BYTE => 0
  | .HWORD => 1
  | .WORD => 2
  | .DWORD => 3

/-- Conversion of a raw `hsize` bus value into the enumeration, as performed
by `AHBSize(self.bus.hsize.value)`; values outside the enumeration raise
`ValueError` in Python, modelled by `none`. -/
def AHBSize.ofNat? : Nat → Option AHBSize
  | 0 => some .BYTE
  | 1 => some .HWORD
  | 2 => some .WORD
  | 3 => some .DWORD
  | _ => none

/-- Conversion of the 1-bit `hwrite` bus value, as performed by
`AHBWrite(self.bus.hwrite.value)`. -/
def AHBWrite.ofBool (b : Bool) : AHBWrite :=
  if b then .WRITE else .READ

/-- Modelled from the spec: transfer-type encoding IDLE=0 of
`ahb_types.AHBTrans`. -/
def AHBTransIDLE : Nat := 0

/-- Modelled from the spec: transfer-type encoding BUSY=1 of
`ahb_types.AHBTrans`. -/
def AHBTransBUSY : Nat := 1

/-- Modelled from the spec: the storage backend `memory.Memory`, a flat
byte-addressable array of fixed size with bounds-checked accesses.  Bytes are
kept as a total function; only indices below `size` are ever read. -/
structure Memory where
  size : Nat
  data : Nat → Nat

/-- Modelled from the spec: bounded read of `n` bytes starting at `addr`
(`Memory.read`); `none` models the backend's bounds exception. -/
def Memory.read (m : Memory) (addr n : Nat) : Option (List Nat) :=
  if addr + n ≤ m.size then
    some ((List.range n).map fun i => m.data (addr + i))
  else
    none

/-- Modelled from the spec: bounded write of the byte list `bs` starting at
`addr` (`Memory.write`); `none` models the backend's bounds exception. -/
def Memory.write (m : Memory) (addr : Nat) (bs : List Nat) : Option Memory :=
  if addr + bs.length ≤ m.size then
    some { m with
            data := fun i =>
              if addr ≤ i ∧ i < addr + bs.length then bs.getD (i - addr) 0
              else m.data i }
  else
    none

/-- Little-endian reassembly of a byte list into an integer, as performed by
`int.from_bytes(data, byteorder="little")`. -/
def fromBytesLE : List Nat → Nat
  | [] => 0
  | b :: bs => b + 256 * fromBytesLE bs

/-- Little-endian serialization of an integer into `n` bytes, as performed by
`data.to_bytes(2**size, byteorder="little")` (the value is always masked to
the byte width first, so the Python overflow exception cannot fire). -/
def toBytesLE : Nat → Nat → List Nat
  | 0, _ => []
  | n + 1, v => (v % 256) :: toBytesLE n (v / 256)

namespace AHBLiteSlaveRAM

/-- Read-validity hook `AHBLiteSlaveRAM._chk_rd`. -/
def chk_rd (m : Memory) (addr : Nat) (size : AHBSize) : Bool :=
  if addr + 2 ^ size.toNat > m.size then false else true

/-- Write-validity hook `AHBLiteSlaveRAM._chk_wr`. -/
def chk_wr (m : Memory) (addr : Nat) (size : AHBSize) : Bool :=
  if addr + 2 ^ size.toNat > m.size then false else true

/-- Read hook `AHBLiteSlaveRAM._rd`: fetch `2**size` bytes and reassemble
little-endian. -/
def rd (m : Memory) (addr : Nat) (size : AHBSize) : Option Nat :=
  (m.read addr (2 ^ size.toNat)).map fromBytesLE

/-- The masking chain at the head of `AHBLiteSlaveRAM._wr`: the local `data`
is assigned only by the four `if`/`elif` arms; `none` models the
`UnboundLocalError` that a fall-through (no arm taken) would raise. -/
def wr_data (size : AHBSize) (value : Nat) : Option Nat :=
  if size = AHBSize.BYTE then some (value &&& 0xFF)
  else if size = AHBSize.HWORD then some (value &&& 0xFFFF)
  else if size = AHBSize.WORD then some (value &&& 0xFFFFFFFF)
  else if size = AHBSize.DWORD then some (value &&& 0xFFFFFFFFFFFFFFFF)
  else none

/-- Write hook `AHBLiteSlaveRAM._wr`: mask the value to the transfer's byte
width, serialize little-endian, store, and return 0. -/
def wr (m : Memory) (addr : Nat) (size : AHBSize) (value : Nat) :
    Option (Memory × Nat) :=
  match wr_data size value with
  | none => none
  | some data => (m.write addr (toBytesLE (2 ^ size.toNat) data)).map fun m2 => (m2, 0)

end AHBLiteSlaveRAM

/-- The pluggable policy-hook surface of a slave variant (`_chk_rd`,
`_chk_wr`, `_rd`, `_wr`), over a backend state of type `M`; `none` results
model exceptions escaping the hook. -/
structure Hooks (M : Type) where
  chk_rd : M → Nat → AHBSize → Bool
  chk_wr : M → Nat → AHBSize → Bool
  rd : M → Nat → AHBSize → Option Nat
  wr : M → Nat → AHBSize → Nat → Option (M × Nat)

/-- Hooks of the base responder `AHBLiteSlave`: always valid, read returns 0,
write returns 0 and leaves the (empty) backend untouched. -/
def AHBLiteSlave.hooks : Hooks Unit where
  chk_rd := fun _ _ _ => true
  chk_wr := fun _ _ _ => true
  rd := fun _ _ _ => some 0
  wr := fun m _ _ _ => some (m, 0)

/-- Hooks of the memory-backed responder `AHBLiteSlaveRAM`. -/
def AHBLiteSlaveRAM.hooks : Hooks Memory where
  chk_rd := AHBLiteSlaveRAM.chk_rd
  chk_wr := AHBLiteSlaveRAM.chk_wr
  rd := AHBLiteSlaveRAM.rd
  wr := AHBLiteSlaveRAM.wr

/-- Per-instance configuration: data bus width in bytes (`bus.data_width`),
presence of the optional `hsel` / `hready_in` wires, and the configured
default drive value `def_val` (`none` models "Z"). -/
structure AHBConfig where
  data_width : Nat
  hsel_exist : Bool
  hready_in_exist : Bool
  def_val : Option Bool

/-- Master-driven signal values observed at one clock edge.  `none` on
`htrans`/`hwrite`/`haddr`/`hsize` models an unresolvable value.  `bpReady` is
the boolean drawn from the backpressure generator for this edge (`True` when
no generator is installed). -/
structure AHBInputs where
  htrans : Option Nat
  hwrite : Option Bool
  haddr : Option Nat
  hsize : Option Nat
  hwdata : Nat
  hsel : Bool
  hready_in : Bool
  bpReady : Bool

/-- State carried across clock edges by `_proc_txn`: the pending-transaction
booleans and fields, the active-error flag, the currently driven output
signals (read back as `cur_hready` / `cur_hresp` on the next edge), and the
backend state. -/
structure MState (M : Type) where
  wr_start : Bool
  rd_start : Bool
  error : Bool
  txn_addr : Nat
  txn_size : AHBSize
  txn_type : AHBWrite
  hready : Option Bool
  hresp : Option AHBResp
  hrdata : Option Nat
  mem : M

/-- Result of one clock edge: either the next state, or a fatal Python
exception (message plus the state at the point of the raise). -/
inductive StepResult (M : Type) where
  | ok : MState M → StepResult M
  | fatal : String → MState M → StepResult M

/-- State carried by a step result (for a fatal result, the state at the
point of the raise). -/
def StepResult.state : StepResult M → MState M
  | .ok s => s
  | .fatal _ s => s

/-- Default drive value for the full-width `hrdata` vector
(`self._get_def(len(self.bus.hrdata))`). -/
def defData (cfg : AHBConfig) : Option Nat :=
  cfg.def_val.map fun b => if b then 2 ^ (8 * cfg.data_width) - 1 else 0

/-- State at the top of `_proc_txn`'s loop: locals initialized at lines
70-75, `hrdata` driven to its default at line 77, `hready`/`hresp` driven to
`def_val` by `_init_bus`. -/
def initState (cfg : AHBConfig) (m0 : M) : MState M where
  wr_start := false
  rd_start := false
  error := false
  txn_addr := 0
  txn_size := AHBSize.WORD
  txn_type := AHBWrite.READ
  hready := cfg.def_val
  hresp := cfg.def_val.map fun b => if b then AHBResp.ERROR else AHBResp.OKAY
  hrdata := defData cfg
  mem := m0

/-- Transfer-size validation `AHBLiteSlave._check_size`: `some msg` models
the raised `ValueError`. -/
def check_size_err (size data_bus_width : Nat) : Option String :=
  if size > data_bus_width then
    some "Size of the transfer provided is larger than the bus width"
  else if size ≤ 0 ∨ (size &&& (size - 1)) ≠ 0 then
    some "Size must be a positive power of 2"
  else
    none

/-- Resolvability check `AHBLiteSlave._check_inputs` over the four sampled
master signals. -/
def check_inputs (inp : AHBInputs) : Bool :=
  inp.htrans.isSome && inp.hwrite.isSome && inp.haddr.isSome && inp.hsize.isSome

/-- Acceptance check `AHBLiteSlave._check_valid_txn` (only evaluated after
`check_inputs` holds, so the `getD` default is never observed). -/
def check_valid_txn (cfg : AHBConfig) (inp : AHBInputs) : Bool :=
  let htrans_st :=
    (inp.htrans.getD 0 != AHBTransIDLE) && (inp.htrans.getD 0 != AHBTransBUSY)
  if cfg.hsel_exist then
    if cfg.hready_in_exist then
      if inp.hsel && inp.hready_in && htrans_st then true else false
    else
      if inp.hsel && htrans_st then true else false
  else
    if htrans_st then true else false

/-- The "Check for new txn" block of `_proc_txn` (lines 118-146), run at the
end of every clock edge on the intermediate state `s`: latch the address
phase when the previous cycle's ready (`cur_hready`), resolvability and
validity all hold, validate the size (fatal on violation), then run the
direction's validity hook and either start the data phase or begin an error
sequence. -/
def checkTxn (cfg : AHBConfig) (hooks : Hooks M) (s : MState M)
    (cur_hready : Option Bool) (inp : AHBInputs) : StepResult M :=
  if cur_hready = some true ∧ check_inputs inp = true ∧
      check_valid_txn cfg inp = true then
    let txn_addr := inp.haddr.getD 0
    match AHBSize.ofNat? (inp.hsize.getD 0) with
    | none => StepResult.fatal "ValueError: invalid AHBSize" { s with txn_addr := txn_addr }
    | some txn_size =>
      let txn_type := AHBWrite.ofBool (inp.hwrite.getD false)
      let s1 := { s with txn_addr := txn_addr, txn_size := txn_size, txn_type := txn_type }
      match check_size_err (2 ^ txn_size.toNat) cfg.data_width with
      | some msg => StepResult.fatal msg s1
      | none =>
        if txn_type = AHBWrite.WRITE then
          if hooks.chk_wr s1.mem txn_addr txn_size = false then
            StepResult.ok { s1 with hready := some false, hrdata := some 0,
                                    error := true, wr_start := false }
          else
            StepResult.ok { s1 with wr_start := true, hresp := some AHBResp.OKAY }
        else
          if hooks.chk_rd s1.mem txn_addr txn_size = false then
            StepResult.ok { s1 with hready := some false, error := true }
          else
            match hooks.rd s1.mem txn_addr txn_size with
            | some d =>
              StepResult.ok { s1 with rd_start := true, hrdata := some d,
                                      hresp := some AHBResp.OKAY }
            | none => StepResult.fatal "backend read exception" s1
  else
    StepResult.ok s

/-- Per-edge default drives (`_proc_txn` lines 85-95): `hready` is driven to
its default, then to 1 when the backpressure decision grants readiness;
`hresp` is driven OKAY. -/
def drivePhase (cfg : AHBConfig) (s : MState M) (bp : Bool) : MState M :=
  { s with hready := if bp then some true else cfg.def_val,
           hresp := some AHBResp.OKAY }

/-- Pending-read completion (`_proc_txn` lines 107-109): when a read is
pending and the previous cycle was ready, clear the pending flag and drive
`hrdata` back to its default. -/
def rdComplete (cfg : AHBConfig) (s : MState M) (cur_hready : Option Bool) :
    MState M :=
  if s.rd_start = true ∧ cur_hready = some true then
    { s with rd_start := false, hrdata := defData cfg }
  else s

/-- Pending-write completion (`_proc_txn` lines 111-116): when a write is
pending and the previous cycle was ready, clear the pending flag and, for a
WRITE transaction, dispatch the `_wr` hook on the current `hwdata` and drive
its return value on `hrdata` with response OKAY.  A `fatal` result models an
exception escaping the hook. -/
def wrComplete (hooks : Hooks M) (s : MState M) (cur_hready : Option Bool)
    (hwdata : Nat) : StepResult M :=
  if s.wr_start = true ∧ cur_hready = some true then
    if s.txn_type = AHBWrite.WRITE then
      match hooks.wr s.mem s.txn_addr s.txn_size hwdata with
      | some (m2, r) =>
        StepResult.ok { s with wr_start := false, mem := m2, hrdata := some r,
                               hresp := some AHBResp.OKAY }
      | none => StepResult.fatal "exception in wr hook" { s with wr_start := false }
    else
      StepResult.ok { s with wr_start := false }
  else
    StepResult.ok s

/-- The non-error part of the per-edge algorithm before the latch check
(`_proc_txn` lines 85-95 and 106-116): drive the per-edge defaults and the
backpressure decision, then complete a pending read/write data phase when
the previous cycle was ready. -/
def normalPhase (cfg : AHBConfig) (hooks : Hooks M) (s : MState M)
    (cur_hready : Option Bool) (inp : AHBInputs) : StepResult M :=
  wrComplete hooks (rdComplete cfg (drivePhase cfg s inp.bpReady) cur_hready)
    cur_hready inp.hwdata

/-- One clock edge of `AHBLiteSlave._proc_txn` (loop body, lines 80-146).
The previous cycle's driven `hready`/`hresp` are snapshotted first; in the
two error-sequence branches the per-edge default/backpressure assignments to
`hready`/`hresp` (lines 85-95) are immediately overwritten (lines 98-104),
so they are folded into the branch results.  The latch check `checkTxn`
runs at the end of the edge in every branch. -/
def stepF (cfg : AHBConfig) (hooks : Hooks M) (s : MState M) (inp : AHBInputs) :
    StepResult M :=
  let cur_hready := s.hready
  let cur_hresp := s.hresp
  if s.error = true ∧ cur_hresp = some AHBResp.OKAY then
    -- First cycle of error response
    checkTxn cfg hooks
      { s with hready := some false, hresp := some AHBResp.ERROR }
      cur_hready inp
  else if s.error = true ∧ cur_hresp = some AHBResp.ERROR then
    -- Second cycle of error response
    checkTxn cfg hooks
      { s with hready := some true, hresp := some AHBResp.ERROR, error := false }
      cur_hready inp
  else
    match normalPhase cfg hooks s cur_hready inp with
    | StepResult.ok t => checkTxn cfg hooks t cur_hready inp
    | StepResult.fatal msg t => StepResult.fatal msg t

/-- States reachable by the slave task: the loop-top state for some initial
backend contents, closed under successful clock edges with arbitrary
master-driven inputs. -/
inductive Reachable (cfg : AHBConfig) (hooks : Hooks M) : MState M → Prop where
  | init (m0 : M) : Reachable cfg hooks (initState cfg m0)
  | step (s s' : MState M) (inp : AHBInputs) :
      Reachable cfg hooks s → stepF cfg hooks s inp = StepResult.ok s' →
      Reachable cfg hooks s'

/-- Concrete 4-byte memory backend, all bytes zero. -/
def memW : Memory := { size := 4, data := fun _ => 0 }

/-- Concrete configuration: 4-byte bus, no optional wires, `def_val = 1`. -/
def cfgW : AHBConfig :=
  { data_width := 4, hsel_exist := false, hready_in_exist := false,
    def_val := some true }

/-- Concrete inputs: a NONSEQ WORD read of address 100, out of bounds for
`memW`. -/
def inpRej : AHBInputs :=
  { htrans := some 2, hwrite := some false, haddr := some 100, hsize := some 2,
    hwdata := 0, hsel := false, hready_in := false, bpReady := true }

/-- Concrete inputs: IDLE transfer, backpressure granting. -/
def inpIdle : AHBInputs := { inpRej with htrans := some 0 }

/-- Concrete inputs: IDLE transfer, backpressure denying. -/
def inpNoBP : AHBInputs := { inpIdle with bpReady := false }

/-- State after the rejected out-of-bounds read (error flag freshly set). -/
def s1W : MState Memory :=
  (stepF cfgW AHBLiteSlaveRAM.hooks (initState cfgW memW) inpRej).state

/-- State after the first error cycle. -/
def s2W : MState Memory :=
  (stepF cfgW AHBLiteSlaveRAM.hooks s1W inpIdle).state

/-- Concrete configuration with `hready_in` present but `hsel` absent. -/
def cfgC4 : AHBConfig :=
  { data_width := 4, hsel_exist := false, hready_in_exist := true,
    def_val := some true }

/-- Concrete inputs: valid NONSEQ WORD read of address 5 with `hready_in`
deasserted. -/
def inpC4 : AHBInputs :=
  { htrans := some 2, hwrite := some false, haddr := some 5, hsize := some 2,
    hwdata := 0, hsel := false, hready_in := false, bpReady := true }


/-- Concrete 16-byte memory backend, all bytes zero (the spec's concrete
round-trip scenario). -/
def mem16 : Memory := { size := 16, data := fun _ => 0 }

/-- Serialization always produces exactly `n` bytes. -/
theorem toBytesLE_length (n : Nat) : ∀ v, (toBytesLE n v).length = n := by
  induction n with
  | zero => intro v; rfl
  | succ n ih => intro v; simp [toBytesLE, ih]

/-- Little-endian reassembly of a little-endian serialization recovers the
value modulo `256 ^ n`. -/
theorem fromBytesLE_toBytesLE (n : Nat) : ∀ v, fromBytesLE (toBytesLE n v) = v % 256 ^ n := by
  induction n with
  | zero => intro v; simp [toBytesLE, fromBytesLE, Nat.mod_one]
  | succ n ih =>
    intro v
    rw [toBytesLE, fromBytesLE, ih, pow_succ', Nat.mod_mul]

/-- Reading a list back elementwise by position recovers the list. -/
theorem range_map_getD (l : List Nat) :
    (List.range l.length).map (fun i => l.getD i 0) = l := by
  induction l with
  | nil => rfl
  | cons a l ih =>
    rw [List.length_cons, List.range_succ_eq_map, List.map_cons, List.map_map]
    simp only [List.getD_cons_zero, Function.comp_def, List.getD_cons_succ]
    rw [ih]

/-- The masking chain of `AHBLiteSlaveRAM._wr` computes the value reduced
modulo the transfer's byte width, for every size class. -/
theorem wr_data_eq (sz : AHBSize) (v : Nat) :
    AHBLiteSlaveRAM.wr_data sz v = some (v % 2 ^ (8 * 2 ^ sz.toNat)) := by
  cases sz <;> simp [AHBLiteSlaveRAM.wr_data, AHBSize.toNat] <;>
    [rw [show (0xFF : Nat) = 2 ^ 8 - 1 by norm_num];
     rw [show (0xFFFF : Nat) = 2 ^ 16 - 1 by norm_num];
     rw [show (0xFFFFFFFF : Nat) = 2 ^ 32 - 1 by norm_num];
     rw [show (0xFFFFFFFFFFFFFFFF : Nat) = 2 ^ 64 - 1 by norm_num]] <;>
    rw [Nat.and_pow_two_sub_one_eq_mod]

/-- Writing `n` serialized bytes in bounds succeeds and reading the same `n`
bytes back returns exactly the serialized bytes. -/
theorem mem_roundtrip (m : Memory) (addr n d : Nat) (hb : addr + n ≤ m.size) :
    ∃ m2, m.write addr (toBytesLE n d) = some m2 ∧ m2.size = m.size ∧
      m2.read addr n = some (toBytesLE n d) := by
  refine ⟨{ m with data := fun i =>
              if addr ≤ i ∧ i < addr + (toBytesLE n d).length then
                (toBytesLE n d).getD (i - addr) 0
              else m.data i }, ?_, rfl, ?_⟩
  · unfold Memory.write
    rw [if_pos (by rw [toBytesLE_length]; exact hb)]
  · unfold Memory.read
    rw [if_pos (show addr + n ≤ m.size from hb)]
    congr 1
    have hpt : ∀ i ∈ List.range n,
        (if addr ≤ addr + i ∧ addr + i < addr + (toBytesLE n d).length then
           (toBytesLE n d).getD (addr + i - addr) 0
         else m.data (addr + i)) = (toBytesLE n d).getD i 0 := by
      intro i hi
      rw [if_pos ⟨Nat.le_add_right _ _,
            by rw [toBytesLE_length]; exact Nat.add_lt_add_left (List.mem_range.mp hi) _⟩,
          Nat.add_sub_cancel_left]
    have hfin := range_map_getD (toBytesLE n d)
    rw [toBytesLE_length] at hfin
    exact (List.map_congr_left hpt).trans hfin

/-- C1.  Write-then-read round trip of the memory-backed responder: for every
size class (all of which satisfy `2 ^ size ≤ bus_width` for a wide enough
bus) and every in-bounds address, `_wr(addr, size, v)` stores successfully
returning 0, and `_rd(addr, size)` then returns `v` masked to the transfer's
byte width, `v % 2 ^ (8 * 2 ^ size)`. -/
theorem ram_write_read_roundtrip (m : Memory) (addr v bus_width : Nat) (sz : AHBSize)
    (hw : 2 ^ sz.toNat ≤ bus_width) (hb : addr + 2 ^ sz.toNat ≤ m.size) :
    ∃ m2 : Memory, AHBLiteSlaveRAM.wr m addr sz v = some (m2, 0) ∧
      AHBLiteSlaveRAM.rd m2 addr sz = some (v % 2 ^ (8 * 2 ^ sz.toNat)) := by
  obtain ⟨m2, hwrite, hsize, hread⟩ :=
    mem_roundtrip m addr (2 ^ sz.toNat) (v % 2 ^ (8 * 2 ^ sz.toNat)) hb
  refine ⟨m2, ?_, ?_⟩
  · unfold AHBLiteSlaveRAM.wr
    rw [wr_data_eq]
    show (m.write addr (toBytesLE (2 ^ sz.toNat) (v % 2 ^ (8 * 2 ^ sz.toNat)))).map _ = _
    rw [hwrite, Option.map_some']
  · unfold AHBLiteSlaveRAM.rd
    rw [hread, Option.map_some', fromBytesLE_toBytesLE]
    have h256 : (256 : Nat) ^ 2 ^ sz.toNat = 2 ^ (8 * 2 ^ sz.toNat) := by
      rw [pow_mul]; norm_num
    rw [h256, Nat.mod_mod_of_dvd _ dvd_rfl]

/-- C1 witness: the spec's concrete scenario, a WORD write of 0xDEADBEEF to
address 4 of a 16-byte memory on a 4-byte bus reads back 0xDEADBEEF. -/
theorem ram_write_read_roundtrip_witness :
    ∃ m2 : Memory, AHBLiteSlaveRAM.wr mem16 4 AHBSize.WORD 0xDEADBEEF = some (m2, 0) ∧
      AHBLiteSlaveRAM.rd m2 4 AHBSize.WORD =
        some (0xDEADBEEF % 2 ^ (8 * 2 ^ AHBSize.WORD.toNat)) :=
  ram_write_read_roundtrip mem16 4 0xDEADBEEF 4 AHBSize.WORD (by decide) (by decide)

/-- Fields preserved or transformed by the read-completion stage. -/
theorem rdComplete_fields {M} (cfg : AHBConfig) (s : MState M) (cur : Option Bool) :
    (rdComplete cfg s cur).hresp = s.hresp ∧
    (rdComplete cfg s cur).error = s.error ∧
    (rdComplete cfg s cur).txn_addr = s.txn_addr ∧
    (rdComplete cfg s cur).txn_size = s.txn_size ∧
    (rdComplete cfg s cur).txn_type = s.txn_type ∧
    (rdComplete cfg s cur).wr_start = s.wr_start ∧
    ((rdComplete cfg s cur).rd_start = true → s.rd_start = true) ∧
    (rdComplete cfg s cur).hready = s.hready ∧
    (rdComplete cfg s cur).mem = s.mem := by
  unfold rdComplete
  split <;> simp

/-- Fields preserved or transformed by the write-completion stage. -/
theorem wrComplete_state_fields {M} (hooks : Hooks M) (s : MState M)
    (cur : Option Bool) (w : Nat) :
    (wrComplete hooks s cur w).state.error = s.error ∧
    (wrComplete hooks s cur w).state.txn_addr = s.txn_addr ∧
    (wrComplete hooks s cur w).state.txn_size = s.txn_size ∧
    (wrComplete hooks s cur w).state.txn_type = s.txn_type ∧
    ((wrComplete hooks s cur w).state.wr_start = true → s.wr_start = true) ∧
    (wrComplete hooks s cur w).state.rd_start = s.rd_start ∧
    (wrComplete hooks s cur w).state.hready = s.hready ∧
    ((wrComplete hooks s cur w).state.hresp = s.hresp ∨
      (wrComplete hooks s cur w).state.hresp = some AHBResp.OKAY) := by
  unfold wrComplete
  split
  · split
    · rcases hw : hooks.wr s.mem s.txn_addr s.txn_size w with _ | ⟨m2, r⟩ <;>
        simp [hw, StepResult.state]
    · simp [StepResult.state]
  · simp [StepResult.state]

/-- Fields preserved or transformed by the whole pre-latch part of a normal
(non-error) edge: the response is OKAY, the error flag and the latched
transaction fields are untouched, and no pending flag is newly set. -/
theorem normalPhase_state {M} (cfg : AHBConfig) (hooks : Hooks M) (s : MState M)
    (cur : Option Bool) (inp : AHBInputs) :
    (normalPhase cfg hooks s cur inp).state.hresp = some AHBResp.OKAY ∧
    (normalPhase cfg hooks s cur inp).state.error = s.error ∧
    (normalPhase cfg hooks s cur inp).state.txn_addr = s.txn_addr ∧
    (normalPhase cfg hooks s cur inp).state.txn_size = s.txn_size ∧
    (normalPhase cfg hooks s cur inp).state.txn_type = s.txn_type ∧
    ((normalPhase cfg hooks s cur inp).state.wr_start = true → s.wr_start = true) ∧
    ((normalPhase cfg hooks s cur inp).state.rd_start = true → s.rd_start = true) := by
  obtain ⟨d1, d2, d3, d4, d5, d6, d7, d8, d9⟩ :=
    rdComplete_fields cfg (drivePhase cfg s inp.bpReady) cur
  obtain ⟨w1, w2, w3, w4, w5, w6, w7, w8⟩ :=
    wrComplete_state_fields hooks (rdComplete cfg (drivePhase cfg s inp.bpReady) cur)
      cur inp.hwdata
  unfold normalPhase
  refine ⟨?_, ?_, ?_, ?_, ?_, ?_, ?_⟩
  · rcases w8 with h | h
    · rw [h, d1]; rfl
    · exact h
  · rw [w1, d2]; rfl
  · rw [w2, d3]; rfl
  · rw [w3, d4]; rfl
  · rw [w4, d5]; rfl
  · intro h
    have h2 := w5 h
    rw [d6] at h2
    exact h2
  · intro h
    rw [w6] at h
    exact d7 h

/-- When the latch condition fails, the latch stage leaves the state
untouched. -/
theorem checkTxn_not_taken {M} (cfg : AHBConfig) (hooks : Hooks M) (t : MState M)
    (cur : Option Bool) (inp : AHBInputs)
    (h : ¬(cur = some true ∧ check_inputs inp = true ∧ check_valid_txn cfg inp = true)) :
    checkTxn cfg hooks t cur inp = StepResult.ok t := by
  unfold checkTxn
  rw [if_neg h]

/-- If the latch stage of an edge whose incoming error flag is clear returns
a state with the error flag set, a validity rejection occurred: ready is
forced low and the response is left as driven before the latch stage. -/
theorem checkTxn_ok_error {M} {cfg : AHBConfig} {hooks : Hooks M} {t s' : MState M}
    {cur : Option Bool} {inp : AHBInputs}
    (h : checkTxn cfg hooks t cur inp = StepResult.ok s') (he : s'.error = true)
    (hte : t.error = false) :
    s'.hready = some false ∧ s'.hresp = t.hresp := by
  unfold checkTxn at h
  split at h
  · split at h
    · exact absurd h (by simp)
    · split at h
      · exact absurd h (by simp)
      · dsimp only at h
        split at h
        · split at h
          · injection h with h2
            subst h2
            exact ⟨rfl, rfl⟩
          · injection h with h2
            subst h2
            simp [hte] at he
        · split at h
          · injection h with h2
            subst h2
            exact ⟨rfl, rfl⟩
          · split at h
            · injection h with h2
              subst h2
              simp [hte] at he
            · exact absurd h (by simp)
  · injection h with h2
    subst h2
    simp [hte] at he

/-- A latched transfer whose byte count exceeds the bus width makes the
latch stage raise the fatal size error immediately: the address-phase fields
are latched, but no read/write branch runs and no output signal is driven
for the request. -/
theorem checkTxn_oversize {M} (cfg : AHBConfig) (hooks : Hooks M) (t : MState M)
    (cur : Option Bool) (inp : AHBInputs) (sz : AHBSize)
    (hc : cur = some true ∧ check_inputs inp = true ∧ check_valid_txn cfg inp = true)
    (hsz : AHBSize.ofNat? (inp.hsize.getD 0) = some sz)
    (hbig : cfg.data_width < 2 ^ sz.toNat) :
    checkTxn cfg hooks t cur inp =
      StepResult.fatal "Size of the transfer provided is larger than the bus width"
        { t with txn_addr := inp.haddr.getD 0, txn_size := sz,
                 txn_type := AHBWrite.ofBool (inp.hwrite.getD false) } := by
  have hcs : check_size_err (2 ^ sz.toNat) cfg.data_width =
      some "Size of the transfer provided is larger than the bus width" := by
    unfold check_size_err
    rw [if_pos hbig]
  unfold checkTxn
  rw [if_pos hc]
  simp only [hsz, hcs]

/-- A latched WRITE rejected by the write-validity hook: the latch stage
forces ready low, forces `hrdata` to 0, sets the error flag and leaves the
pending-write flag clear — the memory and the response are untouched. -/
theorem checkTxn_wr_reject {M} (cfg : AHBConfig) (hooks : Hooks M) (t : MState M)
    (cur : Option Bool) (inp : AHBInputs) (sz : AHBSize)
    (hc : cur = some true ∧ check_inputs inp = true ∧ check_valid_txn cfg inp = true)
    (hsz : AHBSize.ofNat? (inp.hsize.getD 0) = some sz)
    (hszok : check_size_err (2 ^ sz.toNat) cfg.data_width = none)
    (hwr : inp.hwrite = some true)
    (hrej : hooks.chk_wr t.mem (inp.haddr.getD 0) sz = false) :
    checkTxn cfg hooks t cur inp =
      StepResult.ok { t with txn_addr := inp.haddr.getD 0, txn_size := sz,
                             txn_type := AHBWrite.WRITE, hready := some false,
                             hrdata := some 0, error := true, wr_start := false } := by
  unfold checkTxn
  rw [if_pos hc]
  simp only [hsz, hszok]
  simp [hwr, AHBWrite.ofBool, hrej]

/-- The resolvability check holds exactly when all four sampled master
signals are resolvable. -/
theorem check_inputs_iff (inp : AHBInputs) :
    check_inputs inp = true ↔
      (inp.htrans.isSome = true ∧ inp.hwrite.isSome = true ∧
       inp.haddr.isSome = true ∧ inp.hsize.isSome = true) := by
  unfold check_inputs
  simp [Bool.and_eq_true, and_assoc]

/-- The acceptance check holds exactly when the transfer type is neither
IDLE nor BUSY, `hsel` is asserted when the `hsel` wire exists, and
`hready_in` is asserted when both the `hsel` and `hready_in` wires exist. -/
theorem check_valid_txn_iff (cfg : AHBConfig) (inp : AHBInputs) :
    check_valid_txn cfg inp = true ↔
      ((inp.htrans.getD 0 ≠ AHBTransIDLE ∧ inp.htrans.getD 0 ≠ AHBTransBUSY) ∧
       (cfg.hsel_exist = true → inp.hsel = true) ∧
       (cfg.hsel_exist = true → cfg.hready_in_exist = true → inp.hready_in = true)) := by
  unfold check_valid_txn
  cases hs : cfg.hsel_exist <;> cases hr : cfg.hready_in_exist <;>
    simp [Bool.and_eq_true, bne_iff_ne, and_assoc] <;> tauto

/-- A positive number clears its `and` with its predecessor exactly when it
is a power of two (the `size & (size - 1)` trick used by `_check_size`). -/
theorem pow_of_and_pred {s : Nat} : 0 < s → s &&& (s - 1) = 0 → ∃ k, s = 2 ^ k := by
  induction s using Nat.strong_induction_on with
  | _ s ih =>
    intro hs h
    rcases Nat.even_or_odd s with ⟨t, ht⟩ | ⟨u, hu⟩
    · have ht2 : s = 2 * t := by omega
      have htpos : 0 < t := by omega
      have hdiv : (s &&& (s - 1)) / 2 = t &&& (t - 1) := by
        rw [Nat.and_div_two]
        have h1 : s / 2 = t := by omega
        have h2 : (s - 1) / 2 = t - 1 := by omega
        rw [h1, h2]
      rw [h, Nat.zero_div] at hdiv
      obtain ⟨k, hk⟩ := ih t (by omega) htpos hdiv.symm
      exact ⟨k + 1, by rw [ht2, hk, pow_succ']⟩
    · by_cases hu0 : u = 0
      · exact ⟨0, by omega⟩
      · exfalso
        have hdiv : (s &&& (s - 1)) / 2 = u := by
          rw [Nat.and_div_two]
          have h1 : s / 2 = u := by omega
          have h2 : (s - 1) / 2 = u := by omega
          rw [h1, h2, Nat.and_self]
        rw [h, Nat.zero_div] at hdiv
        exact hu0 hdiv.symm

/-- The `_check_size` validation raises exactly when the byte count exceeds
the bus width or is not a positive power of two. -/
theorem check_size_err_iff (size width : Nat) :
    (check_size_err size width).isSome = true ↔
      (width < size ∨ ¬ ∃ k, size = 2 ^ k) := by
  unfold check_size_err
  split_ifs with h1 h2
  · simp only [Option.isSome_some, true_iff]
    exact Or.inl h1
  · simp only [Option.isSome_some, true_iff]
    right
    rcases h2 with h0 | hand
    · rintro ⟨k, rfl⟩
      have := Nat.one_le_two_pow (n := k)
      omega
    · rintro ⟨k, rfl⟩
      apply hand
      rw [Nat.and_pow_two_sub_one_eq_mod, Nat.mod_self]
  · simp only [Option.isSome_none, Bool.false_eq_true, false_iff]
    push_neg at h2 ⊢
    exact ⟨by omega, pow_of_and_pred (by omega) h2.2⟩

/-- Invariant of every reachable state: while the error flag is set, the
machine has driven `hready` low, and the driven response is OKAY (the edge
that set the flag) or ERROR (the first error cycle). -/
theorem reachable_inv {M} {cfg : AHBConfig} {hooks : Hooks M} {s : MState M}
    (h : Reachable cfg hooks s) :
    s.error = true →
      s.hready = some false ∧
        (s.hresp = some AHBResp.OKAY ∨ s.hresp = some AHBResp.ERROR) := by
  induction h with
  | init m0 =>
    intro he
    simp [initState] at he
  | step s0 s1 inp hr hok ih =>
    intro he'
    simp only [stepF] at hok
    by_cases h1 : s0.error = true ∧ s0.hresp = some AHBResp.OKAY
    · rw [if_pos h1] at hok
      have hh := (ih h1.1).1
      rw [checkTxn_not_taken cfg hooks _ _ inp (by rw [hh]; simp)] at hok
      injection hok with h2
      subst h2
      exact ⟨rfl, Or.inr rfl⟩
    · rw [if_neg h1] at hok
      by_cases h2 : s0.error = true ∧ s0.hresp = some AHBResp.ERROR
      · rw [if_pos h2] at hok
        have hh := (ih h2.1).1
        rw [checkTxn_not_taken cfg hooks _ _ inp (by rw [hh]; simp)] at hok
        injection hok with h3
        subst h3
        simp at he'
      · have hserr : s0.error = false := by
          cases hbe : s0.error with
          | false => rfl
          | true =>
            rcases (ih hbe).2 with ho | herr2
            · exact absurd ⟨hbe, ho⟩ h1
            · exact absurd ⟨hbe, herr2⟩ h2
        rw [if_neg h2] at hok
        cases hnp : normalPhase cfg hooks s0 s0.hready inp with
        | ok t =>
          simp only [hnp] at hok
          have hfield := normalPhase_state cfg hooks s0 s0.hready inp
          simp only [hnp, StepResult.state] at hfield
          obtain ⟨hrdy, hrsp⟩ :=
            checkTxn_ok_error hok he' (by rw [hfield.2.1]; exact hserr)
          exact ⟨hrdy, Or.inl (hrsp.trans hfield.1)⟩
        | fatal msg t =>
          simp only [hnp] at hok
          exact StepResult.noConfusion hok

/-- Concrete inputs: a NONSEQ WORD write to out-of-bounds address 100. -/
def inpWrRej : AHBInputs := { inpRej with hwrite := some true }

/-- Concrete inputs: a NONSEQ DWORD (8-byte) read request on the 4-byte bus. -/
def inpBig : AHBInputs :=
  { htrans := some 2, hwrite := some false, haddr := some 0, hsize := some 3,
    hwdata := 0, hsel := false, hready_in := false, bpReady := true }

/-- Concrete inputs: IDLE transfer with unresolvable `htrans`. -/
def inpUnres : AHBInputs := { inpIdle with htrans := none }

/-- Pre-latch state of the edge receiving `inpBig` from the initial state. -/
def tBig : MState Memory :=
  (normalPhase cfgW AHBLiteSlaveRAM.hooks (initState cfgW memW)
    (initState cfgW memW).hready inpBig).state

/-- Pre-latch state of the edge receiving `inpWrRej` from the initial state. -/
def tWr : MState Memory :=
  (normalPhase cfgW AHBLiteSlaveRAM.hooks (initState cfgW memW)
    (initState cfgW memW).hready inpWrRej).state

/-- C2.  Whenever the error flag is active at a clock edge of a reachable
state, the machine performs the two-cycle error sequence: if the previous
cycle's response was OKAY it drives `hready = 0`, `hresp = ERROR` and keeps
the flag; if the previous cycle's response was ERROR it drives `hready = 1`,
`hresp = ERROR` and clears the flag, resuming normal operation. -/
theorem error_sequence_two_cycles {M} (cfg : AHBConfig) (hooks : Hooks M)
    (s : MState M) (inp : AHBInputs)
    (hr : Reachable cfg hooks s) (he : s.error = true) :
    ∃ s', stepF cfg hooks s inp = StepResult.ok s' ∧
      (s.hresp = some AHBResp.OKAY →
        s'.hready = some false ∧ s'.hresp = some AHBResp.ERROR ∧ s'.error = true) ∧
      (s.hresp = some AHBResp.ERROR →
        s'.hready = some true ∧ s'.hresp = some AHBResp.ERROR ∧ s'.error = false) := by
  obtain ⟨hh, hcase⟩ := reachable_inv hr he
  rcases hcase with ho | herr
  · have hstep : stepF cfg hooks s inp =
        StepResult.ok { s with hready := some false, hresp := some AHBResp.ERROR } := by
      simp only [stepF]
      rw [if_pos ⟨he, ho⟩]
      exact checkTxn_not_taken cfg hooks _ _ inp (by rw [hh]; simp)
    refine ⟨_, hstep, fun _ => ⟨rfl, rfl, he⟩, fun hc => ?_⟩
    rw [ho] at hc
    exact absurd hc (by simp)
  · have hstep : stepF cfg hooks s inp =
        StepResult.ok { s with hready := some true, hresp := some AHBResp.ERROR,
                               error := false } := by
      simp only [stepF]
      rw [if_neg (by rw [herr]; simp), if_pos ⟨he, herr⟩]
      exact checkTxn_not_taken cfg hooks _ _ inp (by rw [hh]; simp)
    refine ⟨_, hstep, fun hc => ?_, fun _ => ⟨rfl, rfl, rfl⟩⟩
    rw [herr] at hc
    exact absurd hc (by simp)

/-- C2 witness: the state reached after a rejected out-of-bounds read has
the error flag set and steps through the first error cycle. -/
theorem error_sequence_two_cycles_witness :
    s1W.error = true ∧
      (∃ s', stepF cfgW AHBLiteSlaveRAM.hooks s1W inpIdle = StepResult.ok s' ∧
        (s1W.hresp = some AHBResp.OKAY →
          s'.hready = some false ∧ s'.hresp = some AHBResp.ERROR ∧ s'.error = true) ∧
        (s1W.hresp = some AHBResp.ERROR →
          s'.hready = some true ∧ s'.hresp = some AHBResp.ERROR ∧ s'.error = false)) :=
  ⟨by decide,
   error_sequence_two_cycles cfgW AHBLiteSlaveRAM.hooks s1W inpIdle
     (Reachable.step _ _ inpRej (Reachable.init memW) rfl) (by decide)⟩

/-- C5.  While an error sequence is active at a reachable state, the edge
completes without a fatal error and latches no new address phase: the
transaction fields and both pending flags are unchanged, whatever the
control inputs are. -/
theorem no_latch_during_error {M} (cfg : AHBConfig) (hooks : Hooks M)
    (s : MState M) (inp : AHBInputs)
    (hr : Reachable cfg hooks s) (he : s.error = true) :
    ∃ s', stepF cfg hooks s inp = StepResult.ok s' ∧
      s'.txn_addr = s.txn_addr ∧ s'.txn_size = s.txn_size ∧
      s'.txn_type = s.txn_type ∧ s'.rd_start = s.rd_start ∧
      s'.wr_start = s.wr_start := by
  obtain ⟨hh, hcase⟩ := reachable_inv hr he
  rcases hcase with ho | herr
  · have hstep : stepF cfg hooks s inp =
        StepResult.ok { s with hready := some false, hresp := some AHBResp.ERROR } := by
      simp only [stepF]
      rw [if_pos ⟨he, ho⟩]
      exact checkTxn_not_taken cfg hooks _ _ inp (by rw [hh]; simp)
    exact ⟨_, hstep, rfl, rfl, rfl, rfl, rfl⟩
  · have hstep : stepF cfg hooks s inp =
        StepResult.ok { s with hready := some true, hresp := some AHBResp.ERROR,
                               error := false } := by
      simp only [stepF]
      rw [if_neg (by rw [herr]; simp), if_pos ⟨he, herr⟩]
      exact checkTxn_not_taken cfg hooks _ _ inp (by rw [hh]; simp)
    exact ⟨_, hstep, rfl, rfl, rfl, rfl, rfl⟩

/-- C5 witness: during the error sequence started by the rejected read, the
same would-be-valid read request latches nothing. -/
theorem no_latch_during_error_witness :
    ∃ s', stepF cfgW AHBLiteSlaveRAM.hooks s1W inpRej = StepResult.ok s' ∧
      s'.txn_addr = s1W.txn_addr ∧ s'.txn_size = s1W.txn_size ∧
      s'.txn_type = s1W.txn_type ∧ s'.rd_start = s1W.rd_start ∧
      s'.wr_start = s1W.wr_start :=
  no_latch_during_error cfgW AHBLiteSlaveRAM.hooks s1W inpRej
    (Reachable.step _ _ inpRej (Reachable.init memW) rfl) (by decide)

/-- C10.  On the edge at which a read or write validity rejection occurs
(equivalently, the only way a non-error edge can set the error flag), the
driven response remains OKAY and ready is forced low; the ERROR response is
first driven on the following edge, the first cycle of the error sequence. -/
theorem reject_edge_keeps_okay {M} (cfg : AHBConfig) (hooks : Hooks M)
    (s s' : MState M) (inp : AHBInputs)
    (herr : s.error = false)
    (hok : stepF cfg hooks s inp = StepResult.ok s')
    (he' : s'.error = true) :
    s'.hresp = some AHBResp.OKAY ∧ s'.hready = some false ∧
      ∀ inp2, ∃ s'', stepF cfg hooks s' inp2 = StepResult.ok s'' ∧
        s''.hresp = some AHBResp.ERROR ∧ s''.hready = some false ∧
        s''.error = true := by
  simp only [stepF] at hok
  rw [if_neg (by simp [herr]), if_neg (by simp [herr])] at hok
  cases hnp : normalPhase cfg hooks s s.hready inp with
  | fatal msg t =>
    simp only [hnp] at hok
    exact StepResult.noConfusion hok
  | ok t =>
    simp only [hnp] at hok
    have hfield := normalPhase_state cfg hooks s s.hready inp
    simp only [hnp, StepResult.state] at hfield
    obtain ⟨hrdy, hrsp⟩ :=
      checkTxn_ok_error hok he' (by rw [hfield.2.1]; exact herr)
    have hresp' : s'.hresp = some AHBResp.OKAY := hrsp.trans hfield.1
    refine ⟨hresp', hrdy, fun inp2 => ?_⟩
    refine ⟨{ s' with hready := some false, hresp := some AHBResp.ERROR },
      ?_, rfl, rfl, he'⟩
    simp only [stepF]
    rw [if_pos ⟨he', hresp'⟩]
    exact checkTxn_not_taken cfg hooks _ _ inp2 (by rw [hrdy]; simp)

/-- C10 witness: the rejected out-of-bounds read keeps OKAY on its own edge
and ERROR appears only on the next edge. -/
theorem reject_edge_keeps_okay_witness :
    (initState cfgW memW).error = false ∧ s1W.error = true ∧
      (s1W.hresp = some AHBResp.OKAY ∧ s1W.hready = some false ∧
        ∀ inp2, ∃ s'', stepF cfgW AHBLiteSlaveRAM.hooks s1W inp2 = StepResult.ok s'' ∧
          s''.hresp = some AHBResp.ERROR ∧ s''.hready = some false ∧
          s''.error = true) :=
  ⟨by decide, by decide,
   reject_edge_keeps_okay cfgW AHBLiteSlaveRAM.hooks (initState cfgW memW) s1W
     inpRej (by decide) rfl (by decide)⟩

/-- C8 (amended).  The backpressure source is purely advisory: on the first
cycle of an active error sequence, and on any edge where a validity
rejection occurs, the machine forces `hready` low regardless of the grant;
on the second cycle of an active error sequence it forces `hready` high
regardless of the grant. -/
theorem backpressure_advisory {M} (cfg : AHBConfig) (hooks : Hooks M) :
    (∀ (s : MState M) (inp : AHBInputs), Reachable cfg hooks s → s.error = true →
      ∃ s', stepF cfg hooks s inp = StepResult.ok s' ∧
        s'.hready = (if s.hresp = some AHBResp.ERROR then some true else some false)) ∧
    (∀ (s s' : MState M) (inp : AHBInputs), s.error = false →
      stepF cfg hooks s inp = StepResult.ok s' → s'.error = true →
      s'.hready = some false) := by
  constructor
  · intro s inp hr he
    obtain ⟨hh, hcase⟩ := reachable_inv hr he
    rcases hcase with ho | herr
    · refine ⟨{ s with hready := some false, hresp := some AHBResp.ERROR }, ?_, ?_⟩
      · simp only [stepF]
        rw [if_pos ⟨he, ho⟩]
        exact checkTxn_not_taken cfg hooks _ _ inp (by rw [hh]; simp)
      · rw [if_neg (by rw [ho]; simp)]
    · refine ⟨{ s with hready := some true, hresp := some AHBResp.ERROR,
                       error := false }, ?_, ?_⟩
      · simp only [stepF]
        rw [if_neg (by rw [herr]; simp), if_pos ⟨he, herr⟩]
        exact checkTxn_not_taken cfg hooks _ _ inp (by rw [hh]; simp)
      · rw [if_pos herr]
  · intro s s' inp herr hok he'
    simp only [stepF] at hok
    rw [if_neg (by simp [herr]), if_neg (by simp [herr])] at hok
    cases hnp : normalPhase cfg hooks s s.hready inp with
    | fatal msg t =>
      simp only [hnp] at hok
      exact StepResult.noConfusion hok
    | ok t =>
      simp only [hnp] at hok
      have hfield := normalPhase_state cfg hooks s s.hready inp
      simp only [hnp, StepResult.state] at hfield
      exact (checkTxn_ok_error hok he' (by rw [hfield.2.1]; exact herr)).1

/-- C8 witness: on the second error cycle with backpressure denying, the
machine still forces `hready` high. -/
theorem backpressure_advisory_witness :
    ∃ s', stepF cfgW AHBLiteSlaveRAM.hooks s2W inpNoBP = StepResult.ok s' ∧
      s'.hready = (if s2W.hresp = some AHBResp.ERROR then some true else some false) :=
  (backpressure_advisory cfgW AHBLiteSlaveRAM.hooks).1 s2W inpNoBP
    (Reachable.step _ _ inpIdle (Reachable.step _ _ inpRej (Reachable.init memW) rfl) rfl)
    (by decide)

/-- C8 counterexample: the second cycle of an active error sequence (state
`s2W`, reached concretely from reset) drives `hready` high even though the
backpressure source denies readiness, so the claim "every edge of an active
error sequence forces readiness low" is false. -/
theorem backpressure_cex :
    s2W.error = true ∧ s2W.hresp = some AHBResp.ERROR ∧ inpNoBP.bpReady = false ∧
      (stepF cfgW AHBLiteSlaveRAM.hooks s2W inpNoBP).state.hready = some true := by
  refine ⟨?_, ?_, ?_, ?_⟩ <;> decide

/-- C4 (amended).  A transaction is latched only if the previous cycle's
driven `hready` was 1, all four sampled signals are resolvable, `htrans` is
neither IDLE nor BUSY, `hsel` is asserted when the `hsel` wire exists, and
`hready_in` is asserted when both the `hsel` and `hready_in` wires exist.
When any condition fails, the transaction fields are unchanged and no
pending/error flag is newly set at that edge. -/
theorem latch_only_if {M} (cfg : AHBConfig) (hooks : Hooks M)
    (s : MState M) (inp : AHBInputs)
    (h : ¬(s.hready = some true ∧
           (inp.htrans.isSome = true ∧ inp.hwrite.isSome = true ∧
            inp.haddr.isSome = true ∧ inp.hsize.isSome = true) ∧
           ((inp.htrans.getD 0 ≠ AHBTransIDLE ∧ inp.htrans.getD 0 ≠ AHBTransBUSY) ∧
            (cfg.hsel_exist = true → inp.hsel = true) ∧
            (cfg.hsel_exist = true → cfg.hready_in_exist = true →
              inp.hready_in = true)))) :
    (stepF cfg hooks s inp).state.txn_addr = s.txn_addr ∧
    (stepF cfg hooks s inp).state.txn_size = s.txn_size ∧
    (stepF cfg hooks s inp).state.txn_type = s.txn_type ∧
    ((stepF cfg hooks s inp).state.wr_start = true → s.wr_start = true) ∧
    ((stepF cfg hooks s inp).state.rd_start = true → s.rd_start = true) ∧
    ((stepF cfg hooks s inp).state.error = true → s.error = true) := by
  have hcond : ¬(s.hready = some true ∧ check_inputs inp = true ∧
      check_valid_txn cfg inp = true) := by
    rw [check_inputs_iff, check_valid_txn_iff]
    exact h
  simp only [stepF]
  by_cases h1 : s.error = true ∧ s.hresp = some AHBResp.OKAY
  · rw [if_pos h1, checkTxn_not_taken cfg hooks _ _ inp hcond]
    exact ⟨rfl, rfl, rfl, fun x => x, fun x => x, fun x => x⟩
  · rw [if_neg h1]
    by_cases h2 : s.error = true ∧ s.hresp = some AHBResp.ERROR
    · rw [if_pos h2, checkTxn_not_taken cfg hooks _ _ inp hcond]
      exact ⟨rfl, rfl, rfl, fun x => x, fun x => x,
        fun hf => absurd hf (by simp [StepResult.state])⟩
    · rw [if_neg h2]
      have hfield := normalPhase_state cfg hooks s s.hready inp
      cases hnp : normalPhase cfg hooks s s.hready inp with
      | ok t =>
        simp only [hnp, StepResult.state] at hfield
        simp only [hnp, checkTxn_not_taken cfg hooks t s.hready inp hcond,
          StepResult.state]
        refine ⟨hfield.2.2.1, hfield.2.2.2.1, hfield.2.2.2.2.1,
          hfield.2.2.2.2.2.1, hfield.2.2.2.2.2.2, fun herr => ?_⟩
        rw [← hfield.2.1]
        exact herr
      | fatal msg t =>
        simp only [hnp, StepResult.state] at hfield
        simp only [hnp, StepResult.state]
        refine ⟨hfield.2.2.1, hfield.2.2.2.1, hfield.2.2.2.2.1,
          hfield.2.2.2.2.2.1, hfield.2.2.2.2.2.2, fun herr => ?_⟩
        rw [← hfield.2.1]
        exact herr

/-- C4 witness: an unresolvable `htrans` latches nothing from the initial
state. -/
theorem latch_only_if_witness :
    (stepF cfgW AHBLiteSlaveRAM.hooks (initState cfgW memW) inpUnres).state.txn_addr =
      (initState cfgW memW).txn_addr ∧
    (stepF cfgW AHBLiteSlaveRAM.hooks (initState cfgW memW) inpUnres).state.txn_size =
      (initState cfgW memW).txn_size ∧
    (stepF cfgW AHBLiteSlaveRAM.hooks (initState cfgW memW) inpUnres).state.txn_type =
      (initState cfgW memW).txn_type ∧
    ((stepF cfgW AHBLiteSlaveRAM.hooks (initState cfgW memW) inpUnres).state.wr_start = true →
      (initState cfgW memW).wr_start = true) ∧
    ((stepF cfgW AHBLiteSlaveRAM.hooks (initState cfgW memW) inpUnres).state.rd_start = true →
      (initState cfgW memW).rd_start = true) ∧
    ((stepF cfgW AHBLiteSlaveRAM.hooks (initState cfgW memW) inpUnres).state.error = true →
      (initState cfgW memW).error = true) :=
  latch_only_if cfgW AHBLiteSlaveRAM.hooks (initState cfgW memW) inpUnres (by decide)

/-- C4 counterexample: with the `hready_in` wire present but the `hsel` wire
absent, a valid-looking transfer is latched (address 5, pending read set)
even though `hready_in` is deasserted, so the claim's condition "`hready_in`
is asserted whenever the `hready_in` wire exists" is not necessary for a
latch. -/
theorem latch_only_if_cex :
    cfgC4.hready_in_exist = true ∧ inpC4.hready_in = false ∧
      (initState cfgC4 ()).txn_addr = 0 ∧
      (stepF cfgC4 AHBLiteSlave.hooks (initState cfgC4 ()) inpC4).state.txn_addr = 5 ∧
      (stepF cfgC4 AHBLiteSlave.hooks (initState cfgC4 ()) inpC4).state.rd_start = true := by
  refine ⟨?_, ?_, ?_, ?_, ?_⟩ <;> decide

/-- C3.  `_check_size` raises exactly when the byte count exceeds the bus
width or is not a positive power of two; and when a transfer whose byte
count exceeds the bus width is latched on a normal edge, the fatal error is
raised at that edge right after latching the address-phase fields: the
machine state equals the state `t` the same edge would produce with no
transfer request (IDLE), the response still OKAY and the error flag still
clear, so nothing is driven for the request and no ERROR response ever
results. -/
theorem check_size_fatal_oversize {M} (cfg : AHBConfig) (hooks : Hooks M)
    (s t : MState M) (inp : AHBInputs) (sz : AHBSize)
    (herr : s.error = false)
    (hnp : normalPhase cfg hooks s s.hready inp = StepResult.ok t)
    (hcur : s.hready = some true)
    (hin : check_inputs inp = true) (hval : check_valid_txn cfg inp = true)
    (hsz : AHBSize.ofNat? (inp.hsize.getD 0) = some sz)
    (hbig : cfg.data_width < 2 ^ sz.toNat) :
    stepF cfg hooks s inp =
      StepResult.fatal "Size of the transfer provided is larger than the bus width"
        { t with txn_addr := inp.haddr.getD 0, txn_size := sz,
                 txn_type := AHBWrite.ofBool (inp.hwrite.getD false) } ∧
    t.hresp = some AHBResp.OKAY ∧ t.error = false ∧
    stepF cfg hooks s { inp with htrans := some AHBTransIDLE } = StepResult.ok t ∧
    (∀ size width : Nat, (check_size_err size width).isSome = true ↔
      (width < size ∨ ¬ ∃ k, size = 2 ^ k)) := by
  have hfield := normalPhase_state cfg hooks s s.hready inp
  simp only [hnp, StepResult.state] at hfield
  refine ⟨?_, hfield.1, hfield.2.1.trans herr, ?_, check_size_err_iff⟩
  · simp only [stepF]
    rw [if_neg (by simp [herr]), if_neg (by simp [herr])]
    simp only [hnp]
    exact checkTxn_oversize cfg hooks t s.hready inp sz ⟨hcur, hin, hval⟩ hsz hbig
  · have hnp' : normalPhase cfg hooks s s.hready
        { inp with htrans := some AHBTransIDLE } = StepResult.ok t := hnp
    simp only [stepF]
    rw [if_neg (by simp [herr]), if_neg (by simp [herr])]
    simp only [hnp']
    apply checkTxn_not_taken
    rintro ⟨-, -, hc3⟩
    rw [check_valid_txn_iff] at hc3
    exact hc3.1.1 rfl

/-- C3 witness: the spec's concrete scenario, a DWORD (8-byte) request on the
4-byte bus raises the fatal size error at that edge, driving nothing for the
request. -/
theorem check_size_fatal_oversize_witness :
    stepF cfgW AHBLiteSlaveRAM.hooks (initState cfgW memW) inpBig =
      StepResult.fatal "Size of the transfer provided is larger than the bus width"
        { tBig with txn_addr := inpBig.haddr.getD 0, txn_size := AHBSize.DWORD,
                    txn_type := AHBWrite.ofBool (inpBig.hwrite.getD false) } ∧
    tBig.hresp = some AHBResp.OKAY ∧ tBig.error = false ∧
    stepF cfgW AHBLiteSlaveRAM.hooks (initState cfgW memW)
        { inpBig with htrans := some AHBTransIDLE } = StepResult.ok tBig ∧
    (∀ size width : Nat, (check_size_err size width).isSome = true ↔
      (width < size ∨ ¬ ∃ k, size = 2 ^ k)) :=
  check_size_fatal_oversize cfgW AHBLiteSlaveRAM.hooks (initState cfgW memW) tBig
    inpBig AHBSize.DWORD rfl rfl rfl (by decide) (by decide) rfl (by decide)

/-- C6.  At any edge where a WRITE address phase is latched (on a normal
edge whose pre-latch state is `t`) and the write-validity hook rejects it,
the machine immediately drives `hready = 0` and `hrdata = 0`, sets the
error flag, and leaves the pending-write flag unset; the resulting state
keeps `t`'s memory and response untouched, so the `_wr` hook is never
dispatched for that transaction. -/
theorem write_reject_abandons {M} (cfg : AHBConfig) (hooks : Hooks M)
    (s t : MState M) (inp : AHBInputs) (sz : AHBSize)
    (herr : s.error = false)
    (hnp : normalPhase cfg hooks s s.hready inp = StepResult.ok t)
    (hcur : s.hready = some true)
    (hin : check_inputs inp = true) (hval : check_valid_txn cfg inp = true)
    (hsz : AHBSize.ofNat? (inp.hsize.getD 0) = some sz)
    (hszok : check_size_err (2 ^ sz.toNat) cfg.data_width = none)
    (hwrite : inp.hwrite = some true)
    (hrej : hooks.chk_wr t.mem (inp.haddr.getD 0) sz = false) :
    stepF cfg hooks s inp =
      StepResult.ok { t with txn_addr := inp.haddr.getD 0, txn_size := sz,
                             txn_type := AHBWrite.WRITE, hready := some false,
                             hrdata := some 0, error := true, wr_start := false } := by
  simp only [stepF]
  rw [if_neg (by simp [herr]), if_neg (by simp [herr])]
  simp only [hnp]
  exact checkTxn_wr_reject cfg hooks t s.hready inp sz ⟨hcur, hin, hval⟩ hsz hszok
    hwrite hrej

/-- C6 witness: an out-of-bounds WORD write latched from the initial state
is rejected, forcing ready low, zeroing `hrdata`, starting an error
sequence, leaving the pending-write flag clear and the memory untouched. -/
theorem write_reject_abandons_witness :
    stepF cfgW AHBLiteSlaveRAM.hooks (initState cfgW memW) inpWrRej =
      StepResult.ok { tWr with txn_addr := inpWrRej.haddr.getD 0,
                               txn_size := AHBSize.WORD,
                               txn_type := AHBWrite.WRITE, hready := some false,
                               hrdata := some 0, error := true, wr_start := false } :=
  write_reject_abandons cfgW AHBLiteSlaveRAM.hooks (initState cfgW memW) tWr
    inpWrRej AHBSize.WORD rfl rfl rfl (by decide) (by decide) rfl (by decide) rfl
    (by decide)

/-- C7 (amended).  The memory-backed validity hooks succeed exactly when the
whole access fits the backend, `addr + 2 ^ size ≤ memory size` (so every
accessed byte index lies within [0, memory size)). -/
theorem chk_bounds_iff (m : Memory) (addr : Nat) (sz : AHBSize) :
    (AHBLiteSlaveRAM.chk_rd m addr sz = true ↔ addr + 2 ^ sz.toNat ≤ m.size) ∧
    (AHBLiteSlaveRAM.chk_wr m addr sz = true ↔ addr + 2 ^ sz.toNat ≤ m.size) := by
  unfold AHBLiteSlaveRAM.chk_rd AHBLiteSlaveRAM.chk_wr
  constructor <;> (split_ifs with hb <;> simp <;> omega)

/-- C7 counterexample: reading the last word of a 16-byte memory
(`addr = 12`, WORD) is accepted by `_chk_rd` although `addr + 2 ^ size = 16`
does not lie within [0, 16), so "succeeds exactly when addr + 2^size lies
within [0, memory size)" is false as stated. -/
theorem chk_bounds_cex :
    AHBLiteSlaveRAM.chk_rd mem16 12 AHBSize.WORD = true ∧
      ¬(12 + 2 ^ AHBSize.WORD.toNat < mem16.size) := by
  refine ⟨?_, ?_⟩ <;> decide

/-- C9.  The masking chain of `AHBLiteSlaveRAM._wr` assigns its local value
exactly in the four arms BYTE, HWORD, WORD and DWORD (producing the value
masked to the transfer's byte width), and these four classes exhaust the
size enumeration, so the fall-through that would leave the local unbound and
raise an exception is unreachable: `_wr` is total exactly on these four
sizes. -/
theorem wr_data_total_sizes :
    (∀ (sz : AHBSize) (v : Nat),
       AHBLiteSlaveRAM.wr_data sz v = some (v % 2 ^ (8 * 2 ^ sz.toNat))) ∧
    (∀ sz : AHBSize, sz = AHBSize.BYTE ∨ sz = AHBSize.HWORD ∨
       sz = AHBSize.WORD ∨ sz = AHBSize.DWORD) :=
  ⟨wr_data_eq, fun sz => by cases sz <;> simp⟩
